import Mathlib

/-!
Verification of the Pando transpiler core (`pando_transpiler/src/{types,error,
parser,expressions,generator}.rs`) against its specification.

Strings are embedded as lists of characters.  The Rust code indexes strings
by bytes; every input considered here is ASCII, where byte positions and
character positions coincide.  Rust operations that can panic (slicing with
a reversed or out-of-bounds range) are modelled by `Option`: a `none`
outcome stands for a panic of the Rust code.  Recursive expression parsing
is bounded by an explicit fuel argument that strictly exceeds the recursion
depth reachable from the given text, so the fuel-exhaustion outcome (`none`)
is never taken on the runs proved below.
-/

deriving instance DecidableEq for Except

namespace Pando

/-- Characters of a Rust `&str`, one entry per char (ASCII inputs only). -/
abbrev Str := List Char

/-- Conversion from a Lean string literal to the embedding. -/
def strOf (s : String) : Str := s.data

/-- The backslash character, spelled via its code point. -/
def bslashC : Char := Char.ofNat 92

/-- The single-quote character, spelled via its code point. -/
def squoteC : Char := Char.ofNat 39

/-- `char::is_whitespace` restricted to the ASCII inputs considered here. -/
def isWS (c : Char) : Bool := c.isWhitespace

/-- Rust `str::trim_start`. -/
def trimStartL (l : Str) : Str := l.dropWhile isWS

/-- Rust `str::trim` (both ends). -/
def trimL (l : Str) : Str :=
  ((l.dropWhile isWS).reverse.dropWhile isWS).reverse

/-- Rust `str::find(char)`: index of the first occurrence of a character. -/
def findCharIdx (c : Char) : Str → Option Nat
  | [] => none
  | a :: t => if a = c then some 0 else (findCharIdx c t).map (· + 1)

/-- Rust `str::contains(char)`. -/
def containsC (l : Str) (c : Char) : Bool := (findCharIdx c l).isSome

/-- Rust `str::find(&str)`: index of the first occurrence of a substring. -/
def findSubIdx (pat : Str) : Str → Option Nat
  | [] => if pat = [] then some 0 else none
  | a :: t => if pat.isPrefixOf (a :: t) then some 0 else (findSubIdx pat t).map (· + 1)

/-- Rust `str::starts_with(&str)`. -/
def strStartsWith (pat l : Str) : Bool := pat.isPrefixOf l

/-- Rust `str::starts_with(char)`. -/
def headIs (l : Str) (c : Char) : Bool := l.head? = some c

/-- Rust `str::ends_with(char)`. -/
def lastIs (l : Str) (c : Char) : Bool := l.getLast? = some c

/-- Rust byte-range slicing `&s[a..b]`; `none` models the panic taken when
the range is reversed or out of bounds. -/
def sliceQ (l : Str) (a b : Nat) : Option Str :=
  if a ≤ b ∧ b ≤ l.length then some ((l.drop a).take (b - a)) else none

/-! ## Symbol table (`HashMap<String, String>` threaded through `parse_line`) -/

/-- The symbol table: variable name to declared Pando type name. -/
def SymbolTable := Str → Option Str

/-- The empty table a translation run starts from. -/
def emptyST : SymbolTable := fun _ => none

/-- `HashMap::insert`; redeclaration overwrites. -/
def insertST (m : SymbolTable) (key val : Str) : SymbolTable :=
  fun q => if q = key then some val else m q

/-! ## Data model (`types.rs`, `error.rs`) -/

/-- `error.rs`: message plus line and column. -/
structure TranspilerError where
  message : Str
  line : Nat
  column : Nat
deriving DecidableEq

/-- `types.rs` `BinaryOperator`. -/
inductive BinaryOperator where
  | add | subtract | multiply | divide | floorDivide | modulo
  | bitwiseOr | bitwiseAnd | bitwiseXor
deriving DecidableEq

/-- `types.rs` `UnaryOperator`. -/
inductive UnaryOperator where
  | negate | bitwiseNot
deriving DecidableEq

/-- `BinaryOperator::as_str`. -/
def BinaryOperator.as_str : BinaryOperator → Str
  | .add => strOf "+"
  | .subtract => strOf "-"
  | .multiply => strOf "*"
  | .divide => strOf "/"
  | .floorDivide => strOf "//"
  | .modulo => strOf "%"
  | .bitwiseOr => strOf "|"
  | .bitwiseAnd => strOf "&"
  | .bitwiseXor => strOf "^"

/-- `BinaryOperator::len` (`self.as_str().len()`). -/
def BinaryOperator.opLen (op : BinaryOperator) : Nat := op.as_str.length

/-- The `{:?}` (Debug) rendering of a `BinaryOperator`, used in one error
message of `parse_binary_expression`. -/
def BinaryOperator.debugStr : BinaryOperator → Str
  | .add => strOf "Add"
  | .subtract => strOf "Subtract"
  | .multiply => strOf "Multiply"
  | .divide => strOf "Divide"
  | .floorDivide => strOf "FloorDivide"
  | .modulo => strOf "Modulo"
  | .bitwiseOr => strOf "BitwiseOr"
  | .bitwiseAnd => strOf "BitwiseAnd"
  | .bitwiseXor => strOf "BitwiseXor"

/-- `types.rs` `Expression`.  `Variable` is named `var` (`variable` is a
Lean keyword). -/
inductive Expression where
  | literal (value exprType : Str)
  | var (name exprType : Str)
  | binaryOp (left : Expression) (op : BinaryOperator) (right : Expression) (exprType : Str)
  | unaryOp (op : UnaryOperator) (e : Expression) (exprType : Str)
  | compoundAssign (name : Str) (op : BinaryOperator) (value : Expression) (exprType : Str)
deriving DecidableEq

/-- `Expression::get_type`. -/
def Expression.get_type : Expression → Str
  | .literal _ t => t
  | .var _ t => t
  | .binaryOp _ _ _ t => t
  | .unaryOp _ _ t => t
  | .compoundAssign _ _ _ t => t

/-- `types.rs` `ParsedLine`. -/
inductive ParsedLine where
  | print (content : Str) (comment : Option Str) (indent : Nat)
  | variableDecl (name typeName : Str) (value : Option Expression)
      (comment : Option Str) (indent : Nat)
  | variableAssign (name : Str) (value : Expression) (comment : Option Str) (indent : Nat)
  | comment (content : Str) (indent : Nat)
  | empty
deriving DecidableEq

/-! ## Type catalog (`types.rs`) -/

/-- `get_type_mapping`: the fixed Pando-to-Rust type catalog.  The source
builds a `HashMap` from a literal array of 22 distinct keys; an if-chain
over the same pairs has the same lookup semantics. -/
def get_type_mapping (t : Str) : Option Str :=
  if t = strOf "int" then some (strOf "i32")
  else if t = strOf "int8" then some (strOf "i8")
  else if t = strOf "int16" then some (strOf "i16")
  else if t = strOf "int32" then some (strOf "i32")
  else if t = strOf "int64" then some (strOf "i64")
  else if t = strOf "int128" then some (strOf "i128")
  else if t = strOf "int_size" then some (strOf "isize")
  else if t = strOf "uint8" then some (strOf "u8")
  else if t = strOf "uint16" then some (strOf "u16")
  else if t = strOf "uint32" then some (strOf "u32")
  else if t = strOf "uint64" then some (strOf "u64")
  else if t = strOf "uint128" then some (strOf "u128")
  else if t = strOf "uint_size" then some (strOf "usize")
  else if t = strOf "float" then some (strOf "f32")
  else if t = strOf "double" then some (strOf "f64")
  else if t = strOf "bool" then some (strOf "bool")
  else if t = strOf "char" then some (strOf "char")
  else if t = strOf "str" then some (strOf "&str")
  else if t = strOf "None" then some (strOf "()")
  else if t = strOf "bytes" then some (strOf "&[u8]")
  else if t = strOf "bytearray" then some (strOf "Vec<u8>")
  else if t = strOf "string" then some (strOf "String")
  else none

/-- `get_default_value`. -/
def get_default_value (t : Str) : Str :=
  if t = strOf "int" ∨ t = strOf "int8" ∨ t = strOf "int16" ∨ t = strOf "int32" ∨
     t = strOf "int64" ∨ t = strOf "int128" ∨ t = strOf "int_size" then strOf "0"
  else if t = strOf "uint8" ∨ t = strOf "uint16" ∨ t = strOf "uint32" ∨
     t = strOf "uint64" ∨ t = strOf "uint128" ∨ t = strOf "uint_size" then strOf "0"
  else if t = strOf "float" then strOf "0.0f32"
  else if t = strOf "double" then strOf "0.0f64"
  else if t = strOf "bool" then strOf "false"
  else if t = strOf "char" then [squoteC, bslashC, '0', squoteC]
  else if t = strOf "str" then strOf "\"\""
  else if t = strOf "None" then strOf "()"
  else if t = strOf "bytes" then strOf "b\"\""
  else if t = strOf "bytearray" then strOf "Vec::new()"
  else if t = strOf "string" then strOf "String::new()"
  else strOf "0"

/-- `is_numeric_type`. -/
def is_numeric_type (t : Str) : Bool :=
  t = strOf "int" || t = strOf "int8" || t = strOf "int16" || t = strOf "int32" ||
  t = strOf "int64" || t = strOf "int128" || t = strOf "int_size" ||
  t = strOf "uint8" || t = strOf "uint16" || t = strOf "uint32" ||
  t = strOf "uint64" || t = strOf "uint128" || t = strOf "uint_size" ||
  t = strOf "float" || t = strOf "double"

/-- `is_integer_type`. -/
def is_integer_type (t : Str) : Bool :=
  t = strOf "int" || t = strOf "int8" || t = strOf "int16" || t = strOf "int32" ||
  t = strOf "int64" || t = strOf "int128" || t = strOf "int_size" ||
  t = strOf "uint8" || t = strOf "uint16" || t = strOf "uint32" ||
  t = strOf "uint64" || t = strOf "uint128" || t = strOf "uint_size"

/-- `is_bitwise_type` (delegates to `is_integer_type`). -/
def is_bitwise_type (t : Str) : Bool := is_integer_type t

/-- `escape_string_for_rust`, one character. -/
def escChar (c : Char) : Str :=
  if c = '\n' then [bslashC, 'n']
  else if c = '\r' then [bslashC, 'r']
  else if c = '\t' then [bslashC, 't']
  else if c = '"' then [bslashC, '"']
  else if c = bslashC then [bslashC, bslashC]
  else [c]

/-- `escape_string_for_rust`. -/
def escape_string_for_rust (s : Str) : Str :=
  s.foldr (fun c acc => escChar c ++ acc) []

/-! ## Literal grammar (`expressions.rs::parse_literal` and the numeric
`FromStr` parsers it relies on) -/

/-- Numeric value of a digit string. -/
def digitsToNat (l : Str) : Nat :=
  l.foldl (fun a c => a * 10 + (c.toNat - 48)) 0

/-- A non-empty run of ASCII digits. -/
def isDigits (l : Str) : Bool := !l.isEmpty && l.all Char.isDigit

/-- `str::parse::<i64>()` succeeds: optional sign, digits, value in range. -/
def parsesI64 (l : Str) : Bool :=
  match l with
  | '+' :: rest => isDigits rest && digitsToNat rest ≤ 2 ^ 63 - 1
  | c :: rest =>
      if c = '-' then isDigits rest && digitsToNat rest ≤ 2 ^ 63
      else isDigits (c :: rest) && digitsToNat (c :: rest) ≤ 2 ^ 63 - 1
  | [] => false

/-- Case-insensitive comparison against a lowercase pattern. -/
def lowerEq (l : Str) (pat : Str) : Bool :=
  l.map Char.toLower = pat

/-- Mantissa part of the `f64` grammar: `digits`, `digits . digits*`, or
`. digits+`. -/
def isF64Mantissa (l : Str) : Bool :=
  match findCharIdx '.' l with
  | none => isDigits l
  | some p =>
      let intPart := l.take p
      let fracPart := l.drop (p + 1)
      (isDigits intPart && fracPart.all Char.isDigit) ||
      (intPart.isEmpty && isDigits fracPart)

/-- Split at the first exponent marker `e`/`E`. -/
def splitAtExp (l : Str) : Str × Option Str :=
  match findCharIdx 'e' l, findCharIdx 'E' l with
  | none, none => (l, none)
  | some p, none => (l.take p, some (l.drop (p + 1)))
  | none, some p => (l.take p, some (l.drop (p + 1)))
  | some p, some q =>
      let r := min p q
      (l.take r, some (l.drop (r + 1)))

/-- Optionally signed digit run (exponent body). -/
def isSignedDigits (l : Str) : Bool :=
  match l with
  | '+' :: rest => isDigits rest
  | c :: rest => if c = '-' then isDigits rest else isDigits (c :: rest)
  | [] => false

/-- `str::parse::<f64>()` succeeds: the `FromStr` grammar for `f64`
(`inf`/`infinity`/`nan` case-insensitively, or mantissa with optional
exponent); out-of-range values saturate rather than fail, so no range
check appears. -/
def parsesF64 (l : Str) : Bool :=
  let body := match l with
    | '+' :: rest => rest
    | c :: rest => if c = '-' then rest else c :: rest
    | [] => []
  if lowerEq body (strOf "inf") || lowerEq body (strOf "infinity") ||
     lowerEq body (strOf "nan") then true
  else
    let (mant, expPart) := splitAtExp body
    match expPart with
    | none => isF64Mantissa mant
    | some ex => isF64Mantissa mant && isSignedDigits ex

/-- `parse_literal`. -/
def parse_literal (e : Str) (k c : Nat) : Option (Except TranspilerError Expression) :=
  let trimmed := trimL e
  if parsesI64 trimmed then
    some (.ok (.literal trimmed (strOf "int")))
  else if parsesF64 trimmed then
    some (.ok (.literal trimmed (strOf "float")))
  else if trimmed = strOf "True" then
    some (.ok (.literal (strOf "true") (strOf "bool")))
  else if trimmed = strOf "False" then
    some (.ok (.literal (strOf "false") (strOf "bool")))
  else if trimmed = strOf "None" then
    some (.ok (.literal (strOf "()") (strOf "None")))
  else if strStartsWith (strOf "b\"") trimmed && lastIs trimmed '"' then
    match sliceQ trimmed 2 (trimmed.length - 1) with
    | none => none
    | some inner =>
        some (.ok (.literal (strOf "b\"" ++ escape_string_for_rust inner ++ strOf "\"")
          (strOf "bytes")))
  else if headIs trimmed '"' && lastIs trimmed '"' then
    match sliceQ trimmed 1 (trimmed.length - 1) with
    | none => none
    | some inner =>
        some (.ok (.literal (strOf "\"" ++ escape_string_for_rust inner ++ strOf "\"")
          (strOf "str")))
  else if headIs trimmed squoteC && lastIs trimmed squoteC && decide (3 ≤ trimmed.length) then
    match sliceQ trimmed 1 (trimmed.length - 1) with
    | none => none
    | some inner =>
        some (.ok (.literal ([squoteC] ++ escape_string_for_rust inner ++ [squoteC])
          (strOf "char")))
  else if trimmed = strOf "Vec::new()" ∨ trimmed = strOf "vec![]" then
    some (.ok (.literal (strOf "Vec::new()") (strOf "bytearray")))
  else
    some (.error ⟨strOf "Некорректный литерал: " ++ trimmed, k, c⟩)

/-- `parse_atomic_expression`.  (The Rust parameter `variables` is named
`vars` here; `variables` is reserved in Lean.) -/
def parse_atomic_expression (e : Str) (vars : SymbolTable) (k c : Nat) :
    Option (Except TranspilerError Expression) :=
  match vars e with
  | some t => some (.ok (.var e t))
  | none => parse_literal e k c

/-! ## Compound-assignment detection (`expressions.rs::parse_compound_assignment`) -/

/-- The compound operator table, in source order. -/
def compound_ops : List (Str × BinaryOperator) :=
  [(strOf "+=", .add), (strOf "-=", .subtract), (strOf "*=", .multiply),
   (strOf "/=", .divide), (strOf "//=", .floorDivide), (strOf "%=", .modulo),
   (strOf "|=", .bitwiseOr), (strOf "&=", .bitwiseAnd), (strOf "^=", .bitwiseXor)]

/-- The `for (op_str, op) in &compound_ops` loop body: on the first listed
operator found anywhere in the text with non-empty sides, split there;
otherwise try the next listed operator. -/
def pcaGo (e : Str) : List (Str × BinaryOperator) → Option (Str × BinaryOperator × Str)
  | [] => none
  | (opStr, op) :: rest =>
    match findSubIdx opStr e with
    | some pos =>
        let left := trimL (e.take pos)
        let right := trimL (e.drop (pos + opStr.length))
        if left ≠ [] ∧ right ≠ [] then some (left, op, right) else pcaGo e rest
    | none => pcaGo e rest

/-- `parse_compound_assignment`. -/
def parse_compound_assignment (e : Str) : Option (Str × BinaryOperator × Str) :=
  pcaGo e compound_ops

/-! ## Binary operator scan (`expressions.rs::parse_binary_expression`) -/

/-- `check_operator_at_position`. -/
def check_operator_at_position (e : Str) (pos : Nat) (opStr : Str) : Bool :=
  if e.length < pos + opStr.length then false
  else decide ((e.drop pos).take opStr.length = opStr)

/-- The `PRECEDENCE` table: index in this list is the precedence rank
(lower index = chosen first). -/
def PRECEDENCE : List (BinaryOperator × Str) :=
  [(.bitwiseOr, strOf "|"), (.bitwiseXor, strOf "^"), (.bitwiseAnd, strOf "&"),
   (.add, strOf "+"), (.subtract, strOf "-"), (.multiply, strOf "*"),
   (.divide, strOf "/"), (.floorDivide, strOf "//"), (.modulo, strOf "%")]

/-- `prec < best_prec` where an absent best stands for `usize::MAX`. -/
def precLtBest (prec : Nat) : Option (Nat × BinaryOperator × Nat) → Bool
  | none => true
  | some (_, _, bp) => prec < bp

/-- The inner `for (prec, (op, op_str)) in PRECEDENCE.iter().enumerate()`
loop: stop (with an update) at the first listed operator that matches at
position `i` and strictly improves on the best precedence so far. -/
def tryOpsAt (e : Str) (i : Nat) (best : Option (Nat × BinaryOperator × Nat)) :
    List (Nat × BinaryOperator × Str) → Option (BinaryOperator × Nat)
  | [] => none
  | (prec, op, s) :: rest =>
      if check_operator_at_position e i s && precLtBest prec best then some (op, prec)
      else tryOpsAt e i best rest

/-- One step of the paren-depth bookkeeping: the count is updated before the
position is examined. -/
def parenStep (paren : Int) (ch : Char) : Int :=
  if ch = '(' then paren + 1 else if ch = ')' then paren - 1 else paren

/-- The outer scan of `parse_binary_expression`: walk the character
positions, tracking parenthesis depth, keeping the best (lowest-rank,
then leftmost) operator occurrence seen at depth zero. -/
def scanGo (e : Str) : List (Nat × Char) → Int → Option (Nat × BinaryOperator × Nat) →
    Option (Nat × BinaryOperator × Nat)
  | [], _, best => best
  | (i, ch) :: rest, paren, best =>
      let paren' := parenStep paren ch
      let best' :=
        if paren' = 0 then
          match tryOpsAt e i best PRECEDENCE.enum with
          | some (op, prec) => some (i, op, prec)
          | none => best
        else best
      scanGo e rest paren' best'

/-- The operator position `parse_binary_expression` splits at, if any. -/
def find_best_operator (e : Str) : Option (Nat × BinaryOperator) :=
  (scanGo e e.enum 0 none).map (fun b => (b.1, b.2.1))

/-- `is_operator_valid_for_type`. -/
def is_operator_valid_for_type (op : BinaryOperator) (t : Str) : Bool :=
  match op with
  | .add | .subtract | .multiply | .divide => is_numeric_type t
  | .floorDivide | .modulo => is_integer_type t
  | .bitwiseOr | .bitwiseAnd | .bitwiseXor => is_bitwise_type t

/-! ## Recursive expression parsing

`parse_expression`, `parse_binary_expression` and `parse_unary_expression`
are mutually recursive on substrings.  The embedding makes the recursion
structural on an explicit fuel counter; the entry point supplies
`2 * length + 4` fuel, which strictly exceeds the reachable recursion depth
(every second nested call drops at least one character), so `none` by fuel
exhaustion never occurs on the runs proved below.  The other `none` source
is the panic modelling of `sliceQ` inside `parse_literal`. -/

mutual

/-- `parse_expression` body (fuel-indexed). -/
def parseExprF : Nat → Str → SymbolTable → Nat → Nat →
    Option (Except TranspilerError Expression)
  | 0, _, _, _, _ => none
  | fuel + 1, e, vars, k, c =>
    let trimmed := trimL e
    match parse_compound_assignment trimmed with
    | some (name, op, valueTxt) =>
      match vars name with
      | none =>
          some (.error ⟨strOf "Переменная '" ++ name ++ strOf "' не объявлена", k, c⟩)
      | some varType =>
        match parseExprF fuel valueTxt vars k c with
        | none => none
        | some (.error err) => some (.error err)
        | some (.ok valueExpr) =>
          let valueType := valueExpr.get_type
          if varType ≠ valueType then
            some (.error ⟨strOf "Несовместимые типы: " ++ varType ++ strOf " и " ++
              valueType, k, c⟩)
          else
            some (.ok (.compoundAssign name op valueExpr varType))
    | none => parseBinF fuel trimmed vars k c

/-- `parse_binary_expression` body (fuel-indexed). -/
def parseBinF : Nat → Str → SymbolTable → Nat → Nat →
    Option (Except TranspilerError Expression)
  | 0, _, _, _, _ => none
  | fuel + 1, e, vars, k, c =>
    match find_best_operator e with
    | some (pos, op) =>
      match parseBinF fuel (e.take pos) vars k c with
      | none => none
      | some (.error err) => some (.error err)
      | some (.ok leftExpr) =>
        match parseBinF fuel (e.drop (pos + op.opLen)) vars k c with
        | none => none
        | some (.error err) => some (.error err)
        | some (.ok rightExpr) =>
          let leftType := leftExpr.get_type
          let rightType := rightExpr.get_type
          if leftType ≠ rightType then
            some (.error ⟨strOf "Несовместимые типы в операции: " ++ leftType ++
              strOf " и " ++ rightType, k, c + pos⟩)
          else if !is_operator_valid_for_type op leftType then
            some (.error ⟨strOf "Операция " ++ op.debugStr ++
              strOf " недопустима для типа " ++ leftType, k, c + pos⟩)
          else
            some (.ok (.binaryOp leftExpr op rightExpr leftType))
    | none => parseUnF fuel e vars k c

/-- `parse_unary_expression` body (fuel-indexed). -/
def parseUnF : Nat → Str → SymbolTable → Nat → Nat →
    Option (Except TranspilerError Expression)
  | 0, _, _, _, _ => none
  | fuel + 1, e, vars, k, c =>
    let trimmed := trimL e
    if headIs trimmed '-' then
      match parseUnF fuel (trimL (trimmed.drop 1)) vars k (c + 1) with
      | none => none
      | some (.error err) => some (.error err)
      | some (.ok inner) =>
        let exprType := inner.get_type
        if !is_numeric_type exprType then
          some (.error ⟨strOf "Унарный минус недопустим для типа " ++ exprType, k, c⟩)
        else
          some (.ok (.unaryOp .negate inner exprType))
    else if headIs trimmed '~' then
      match parseUnF fuel (trimL (trimmed.drop 1)) vars k (c + 1) with
      | none => none
      | some (.error err) => some (.error err)
      | some (.ok inner) =>
        let exprType := inner.get_type
        if !is_bitwise_type exprType then
          some (.error ⟨strOf "Битовая инверсия недопустима для типа " ++ exprType, k, c⟩)
        else
          some (.ok (.unaryOp .bitwiseNot inner exprType))
    else if headIs trimmed '(' && lastIs trimmed ')' then
      parseBinF fuel (trimL ((trimmed.drop 1).take (trimmed.length - 2))) vars k (c + 1)
    else
      parse_atomic_expression trimmed vars k c

end

/-- `parse_expression`, the entry point used by `parser.rs`. -/
def parse_expression (e : Str) (vars : SymbolTable) (k c : Nat) :
    Option (Except TranspilerError Expression) :=
  parseExprF (2 * e.length + 4) e vars k c

/-! ## Line splitting (`parser.rs::split_code_and_comment`) -/

/-- The scanning loop of `split_code_and_comment`: returns the code part
(every character consumed before an unquoted, unescaped `#`) and whether
such a `#` was found.  Quote and escape flags follow the source: both
quote characters toggle the same flag, a backslash escapes the next
character. -/
def sccCore : Str → Bool → Bool → Str × Bool
  | [], _, _ => ([], false)
  | c :: rest, inString, escaped =>
    if escaped then
      let r := sccCore rest inString false
      (c :: r.1, r.2)
    else if c = bslashC then
      let r := sccCore rest inString true
      (c :: r.1, r.2)
    else if c = '"' ∨ c = squoteC then
      let r := sccCore rest (!inString) escaped
      (c :: r.1, r.2)
    else if c = '#' then
      if !inString then ([], true)
      else
        let r := sccCore rest inString escaped
        (c :: r.1, r.2)
    else
      let r := sccCore rest inString escaped
      (c :: r.1, r.2)

/-- `split_code_and_comment`.  When a comment marker was found, the comment
is rebuilt from the original line by skipping `code.len() + 1` characters,
exactly as the source does. -/
def split_code_and_comment (line : Str) : Str × Option Str :=
  let r := sccCore line false false
  (r.1, if r.2 then some (line.drop (r.1.length + 1)) else none)

/-! ## Statement parsing (`parser.rs::parse_line`) -/

/-- Rust `str::splitn(2, sep)` as the pair (first part, rest after the
first separator if any). -/
def splitn2 (sep : Char) (l : Str) : Str × Option Str :=
  match findCharIdx sep l with
  | none => (l, none)
  | some p => (l.take p, some (l.drop (p + 1)))

/-- The `print` branch of `parse_line` (everything after
`trimmed_code.starts_with("print")` succeeds). -/
def printRule (trimmedCode : Str) (commentT : Option Str) (indent k : Nat) :
    Option (Except TranspilerError ParsedLine) :=
  if !(containsC trimmedCode '(') || !(containsC trimmedCode ')') then
    some (.error ⟨strOf "Отсутствуют скобки у вызова print", k,
      (findCharIdx 'p' trimmedCode).getD 1⟩)
  else
    match findCharIdx '(' trimmedCode, findCharIdx ')' trimmedCode with
    | some argsStart, some argsEnd =>
      match sliceQ trimmedCode (argsStart + 1) argsEnd with
      | none => none
      | some raw =>
        let args := trimL raw
        if !(headIs args '"' && lastIs args '"') then
          some (.error ⟨strOf "Аргумент print должен быть строкой в двойных кавычках",
            k, argsStart + 1⟩)
        else
          match sliceQ args 1 (args.length - 1) with
          | none => none
          | some content =>
              some (.ok (.print (escape_string_for_rust content) commentT indent))
    | _, _ => none

/-- `parse_line`.  The returned pair carries the symbol table after the
call, since the Rust function mutates it in the declaration branch. -/
def parse_line (line : Str) (k : Nat) (vars : SymbolTable) :
    Option (Except TranspilerError ParsedLine) × SymbolTable :=
  let indent := (line.takeWhile isWS).length
  let sc := split_code_and_comment line
  let trimmedCode := trimL sc.1
  let commentT := sc.2.map trimStartL
  let fallback : Option (Except TranspilerError ParsedLine) × SymbolTable :=
    (some (.error ⟨strOf "Нераспознанная конструкция. Ожидается print, объявление или присваивание переменной", k, 1⟩), vars)
  if trimmedCode = [] then
    match commentT with
    | some com =>
        (some (.ok (.comment (if com = [] then strOf "//" else strOf "// " ++ com) indent)),
         vars)
    | none => (some (.ok .empty), vars)
  else if strStartsWith (strOf "print") trimmedCode then
    (printRule trimmedCode commentT indent k, vars)
  else
    match findCharIdx ':' trimmedCode with
    | some colonPos =>
      let varName := trimL (trimmedCode.take colonPos)
      if varName = [] then
        (some (.error ⟨strOf "Отсутствует имя переменной", k, 1⟩), vars)
      else if !(varName.head?.elim false Char.isAlpha) then
        (some (.error ⟨strOf "Имя переменной должно начинаться с буквы", k, 1⟩), vars)
      else
        let afterColon := trimL (trimmedCode.drop (colonPos + 1))
        let parts := splitn2 '=' afterColon
        let typePart := trimL parts.1
        if (get_type_mapping typePart).isNone then
          (some (.error ⟨strOf "Неизвестный тип: " ++ typePart, k, colonPos + 2⟩), vars)
        else
          let vars2 := insertST vars varName typePart
          match parts.2 with
          | some rawVal =>
            match parse_expression (trimL rawVal) vars2 k (colonPos + parts.1.length + 2) with
            | none => (none, vars2)
            | some (.error err) => (some (.error err), vars2)
            | some (.ok v) =>
                (some (.ok (.variableDecl varName typePart (some v) commentT indent)), vars2)
          | none =>
              (some (.ok (.variableDecl varName typePart none commentT indent)), vars2)
    | none =>
      match findCharIdx '=' trimmedCode with
      | some eqPos =>
        let leftSide := trimL (trimmedCode.take eqPos)
        let rightSide := trimL (trimmedCode.drop (eqPos + 1))
        if leftSide ≠ [] ∧ leftSide.head?.elim false Char.isAlpha then
          match vars leftSide with
          | none =>
              (some (.error ⟨strOf "Переменная '" ++ leftSide ++ strOf "' не объявлена",
                k, 1⟩), vars)
          | some varType =>
            match parse_expression rightSide vars k (eqPos + 1) with
            | none => (none, vars)
            | some (.error err) => (some (.error err), vars)
            | some (.ok value) =>
              if varType ≠ value.get_type then
                (some (.error ⟨strOf "Несовместимые типы: нельзя присвоить " ++
                  value.get_type ++ strOf " в " ++ varType, k, eqPos + 1⟩), vars)
              else
                (some (.ok (.variableAssign leftSide value commentT indent)), vars)
        else fallback
      | none => fallback

/-! ## Code generation (`generator.rs`) -/

/-- The operator spelling used inside rendered binary expressions
(floor division lowers to `/`). -/
def genBinOpStr : BinaryOperator → Str
  | .add => strOf "+"
  | .subtract => strOf "-"
  | .multiply => strOf "*"
  | .divide => strOf "/"
  | .floorDivide => strOf "/"
  | .modulo => strOf "%"
  | .bitwiseOr => strOf "|"
  | .bitwiseAnd => strOf "&"
  | .bitwiseXor => strOf "^"

/-- The operator spelling used on compound-assignment statement lines
(floor division lowers to `/=`). -/
def compoundOpStr : BinaryOperator → Str
  | .add => strOf "+="
  | .subtract => strOf "-="
  | .multiply => strOf "*="
  | .divide => strOf "/="
  | .floorDivide => strOf "/="
  | .modulo => strOf "%="
  | .bitwiseOr => strOf "|="
  | .bitwiseAnd => strOf "&="
  | .bitwiseXor => strOf "^="

/-- `generate_expression`. -/
def generate_expression : Expression → Str
  | .literal value exprType =>
      if exprType = strOf "bytearray" && strStartsWith (strOf "b\"") value then
        value ++ strOf ".to_vec()"
      else value
  | .var name _ => name
  | .binaryOp left op right _ =>
      strOf "(" ++ generate_expression left ++ strOf " " ++ genBinOpStr op ++
      strOf " " ++ generate_expression right ++ strOf ")"
  | .unaryOp op e _ =>
      strOf "(" ++ (match op with | .negate => strOf "-" | .bitwiseNot => strOf "!") ++
      generate_expression e ++ strOf ")"
  | .compoundAssign name op value _ =>
      name ++ strOf " " ++ genBinOpStr op ++ strOf " " ++ generate_expression value

/-- The trailing `// comment` suffix appended to generated statements. -/
def commentSuffix : Option Str → Str
  | none => []
  | some c => if c = [] then strOf " //" else strOf " // " ++ c

/-- `generate_rust_line`. -/
def generate_rust_line : ParsedLine → Str
  | .print content comment indent =>
      List.replicate indent ' ' ++ strOf "println!(\"" ++ content ++ strOf "\");" ++
      commentSuffix comment
  | .variableDecl name typeName value comment indent =>
      let rustType := (get_type_mapping typeName).getD (strOf "i32")
      let rustValue := match value with
        | some expr =>
            let exprStr := generate_expression expr
            if typeName = strOf "bytearray" && strStartsWith (strOf "b\"") exprStr then
              exprStr ++ strOf ".to_vec()"
            else exprStr
        | none => get_default_value typeName
      List.replicate indent ' ' ++ strOf "let mut " ++ name ++ strOf ": " ++ rustType ++
      strOf " = " ++ rustValue ++ strOf ";" ++ commentSuffix comment
  | .variableAssign name value comment indent =>
      let base :=
        match value with
        | .compoundAssign _ op _ _ =>
            -- format!("{}{} {};", indent_str, name, op_str): the rendered
            -- value sub-expression is absent from the format string.
            List.replicate indent ' ' ++ name ++ strOf " " ++ compoundOpStr op ++ strOf ";"
        | _ =>
            List.replicate indent ' ' ++ name ++ strOf " = " ++
            generate_expression value ++ strOf ";"
      base ++ commentSuffix comment
  | .comment content indent => List.replicate indent ' ' ++ content
  | .empty => []

/-! # Theorems -/

/-! ## Helper lemmas about the string primitives -/

theorem isAlpha_not_ws {c : Char} (h : c.isAlpha = true) : isWS c = false := by
  by_contra hws
  rw [Bool.not_eq_false] at hws
  simp only [isWS, Char.isWhitespace, Bool.or_eq_true, decide_eq_true_eq] at hws
  rcases hws with ((h1 | h2) | h3) | h4 <;> subst_vars <;> exact absurd h (by decide)

theorem dropWhile_isWS_eq_self {l : Str} (h : ∀ c, l.head? = some c → isWS c = false) :
    l.dropWhile isWS = l := by
  cases l with
  | nil => rfl
  | cons a t => simp [List.dropWhile_cons, h a rfl]

theorem trimL_eq_self_of {l : Str}
    (h1 : ∀ c, l.head? = some c → isWS c = false)
    (h2 : ∀ c, l.getLast? = some c → isWS c = false) : trimL l = l := by
  unfold trimL
  rw [dropWhile_isWS_eq_self h1]
  rw [dropWhile_isWS_eq_self (fun c hc => h2 c (by rwa [List.head?_reverse] at hc))]
  exact List.reverse_reverse l

theorem dropWhile_eq_of_trimL_eq {l : Str} (h : trimL l = l) :
    l.dropWhile isWS = l ∧ l.reverse.dropWhile isWS = l.reverse := by
  have hd1 : (l.dropWhile isWS) <:+ l := List.dropWhile_suffix _
  have hd2 : ((l.dropWhile isWS).reverse.dropWhile isWS) <:+ (l.dropWhile isWS).reverse :=
    List.dropWhile_suffix _
  have hlen : (trimL l).length = l.length := by rw [h]
  unfold trimL at hlen
  simp only [List.length_reverse] at hlen
  have hle1 := hd1.length_le
  have hle2 := hd2.length_le
  simp only [List.length_reverse] at hle2
  have h1len : (l.dropWhile isWS).length = l.length := le_antisymm hle1 (by omega)
  have h1 : l.dropWhile isWS = l := hd1.eq_of_length h1len
  refine ⟨h1, ?_⟩
  rw [h1] at hd2 hlen
  exact hd2.eq_of_length (by simpa using hlen)

theorem head_not_ws_of_dropWhile_eq {l : Str} {c : Char}
    (h : l.dropWhile isWS = l) (hc : l.head? = some c) : isWS c = false := by
  cases l with
  | nil => simp at hc
  | cons a t =>
    have ha : a = c := by simpa using hc
    subst ha
    by_cases hw : isWS a = true
    · exfalso
      rw [List.dropWhile_cons, if_pos hw] at h
      have := (List.dropWhile_suffix (l := t) isWS).length_le
      have := congrArg List.length h
      simp at this
      omega
    · simpa using hw

theorem head_not_ws_of_trimL {l : Str} {c : Char}
    (h : trimL l = l) (hc : l.head? = some c) : isWS c = false :=
  head_not_ws_of_dropWhile_eq (dropWhile_eq_of_trimL_eq h).1 hc

theorem getLast_not_ws_of_trimL {l : Str} {c : Char}
    (h : trimL l = l) (hc : l.getLast? = some c) : isWS c = false :=
  head_not_ws_of_dropWhile_eq (dropWhile_eq_of_trimL_eq h).2
    (by rwa [List.head?_reverse])

theorem trimL_cons_of_ws {a : Char} (ha : isWS a = true) (l : Str) :
    trimL (a :: l) = trimL l := by
  unfold trimL
  rw [List.dropWhile_cons, if_pos ha]

theorem trimL_append_ws_right {a : Char} (ha : isWS a = true) (l : Str) :
    trimL (l ++ [a]) = trimL l := by
  unfold trimL
  rw [List.dropWhile_append]
  by_cases he : (l.dropWhile isWS).isEmpty
  · rw [if_pos he]
    have h0 : l.dropWhile isWS = [] := by simpa [List.isEmpty_iff] using he
    simp [h0, List.dropWhile_cons, ha]
  · rw [if_neg he]
    rw [List.reverse_append]
    simp only [List.reverse_cons, List.reverse_nil, List.nil_append, List.singleton_append]
    rw [List.dropWhile_cons, if_pos ha]

theorem findCharIdx_eq_none {c : Char} : ∀ {l : Str}, c ∉ l → findCharIdx c l = none := by
  intro l
  induction l with
  | nil => intro _; rfl
  | cons a t ih =>
    intro h
    have h1 : ¬(c = a) ∧ c ∉ t := by simpa using h
    unfold findCharIdx
    rw [if_neg (fun hac => h1.1 hac.symm), ih h1.2]
    rfl

theorem findCharIdx_append_of_not_mem {c : Char} {a : Str} (h : c ∉ a) (b : Str) :
    findCharIdx c (a ++ b) = (findCharIdx c b).map (· + a.length) := by
  induction a with
  | nil =>
    cases hb : findCharIdx c b <;> simp [hb]
  | cons x t ih =>
    have h1 : ¬(c = x) ∧ c ∉ t := by simpa using h
    rw [List.cons_append]
    simp only [findCharIdx]
    rw [if_neg (fun hxc => h1.1 hxc.symm), ih h1.2]
    cases hb : findCharIdx c b <;> simp [hb, Nat.add_assoc]

theorem findCharIdx_append_cons_self {c : Char} {a : Str} (h : c ∉ a) (b : Str) :
    findCharIdx c (a ++ c :: b) = some a.length := by
  rw [findCharIdx_append_of_not_mem h]
  unfold findCharIdx
  simp

/-! ## Helper lemmas about the line splitter -/

theorem sccCore_no_hash : ∀ {l : Str} (b1 b2 : Bool), '#' ∉ l → sccCore l b1 b2 = (l, false) := by
  intro l
  induction l with
  | nil => intro _ _ _; rfl
  | cons a t ih =>
    intro b1 b2 h
    have h1 : ¬(a = '#') ∧ '#' ∉ t := by
      constructor
      · intro he; exact h (by simp [he])
      · intro ht; exact h (by simp [ht])
    unfold sccCore
    by_cases hb2 : b2
    · simp only [hb2, if_true, ih _ _ h1.2]
    · simp only [hb2, Bool.false_eq_true, if_false]
      by_cases hbs : a = bslashC
      · simp only [hbs, if_true, ih _ _ h1.2]
      · rw [if_neg hbs]
        by_cases hq : a = '"' ∨ a = squoteC
        · rw [if_pos hq, ih _ _ h1.2]
        · rw [if_neg hq, if_neg h1.1, ih _ _ h1.2]

theorem split_code_and_comment_no_hash {l : Str} (h : '#' ∉ l) :
    split_code_and_comment l = (l, none) := by
  unfold split_code_and_comment
  rw [sccCore_no_hash false false h]
  rfl

theorem sccCore_found_hash :
    ∀ {l : Str} {b1 b2 : Bool} {cp : Str},
      sccCore l b1 b2 = (cp, true) → l.get? cp.length = some '#' := by
  intro l
  induction l with
  | nil => intro b1 b2 cp h; exact absurd h (by simp [sccCore])
  | cons a t ih =>
    intro b1 b2 cp h
    unfold sccCore at h
    by_cases hb2 : b2
    · rw [if_pos hb2] at h
      rcases hr : sccCore t b1 false with ⟨cp', fd⟩
      rw [hr] at h
      simp only [Prod.mk.injEq] at h
      obtain ⟨h1, h2⟩ := h
      subst h1; subst h2
      simpa using ih hr
    · rw [if_neg hb2] at h
      by_cases hbs : a = bslashC
      · rw [if_pos hbs] at h
        rcases hr : sccCore t b1 true with ⟨cp', fd⟩
        rw [hr] at h
        simp only [Prod.mk.injEq] at h
        obtain ⟨h1, h2⟩ := h
        subst h1; subst h2
        simpa using ih hr
      · rw [if_neg hbs] at h
        by_cases hq : a = '"' ∨ a = squoteC
        · rw [if_pos hq] at h
          rcases hr : sccCore t (!b1) b2 with ⟨cp', fd⟩
          rw [hr] at h
          simp only [Prod.mk.injEq] at h
          obtain ⟨h1, h2⟩ := h
          subst h1; subst h2
          simpa using ih hr
        · rw [if_neg hq] at h
          by_cases hh : a = '#'
          · rw [if_pos hh] at h
            by_cases hin : (!b1) = true
            · rw [if_pos hin] at h
              simp only [Prod.mk.injEq] at h
              obtain ⟨h1, _⟩ := h
              subst h1
              simp [hh]
            · rw [if_neg hin] at h
              rcases hr : sccCore t b1 b2 with ⟨cp', fd⟩
              rw [hr] at h
              simp only [Prod.mk.injEq] at h
              obtain ⟨h1, h2⟩ := h
              subst h1; subst h2
              simpa using ih hr
          · rw [if_neg hh] at h
            rcases hr : sccCore t b1 b2 with ⟨cp', fd⟩
            rw [hr] at h
            simp only [Prod.mk.injEq] at h
            obtain ⟨h1, h2⟩ := h
            subst h1; subst h2
            simpa using ih hr


/-- C6 amended: when the line splitter's quote- and escape-aware scan finds
a comment-starting `#`, the comment segment is everything strictly after
that `#` — only the `#` itself is skipped, no further character — the code
part is exactly the text before it, and a line containing no `#` at all
yields an absent (not empty) comment. -/
theorem c6_amended_comment_extent (line code com : Str)
    (h : split_code_and_comment line = (code, some com)) :
    line.get? code.length = some '#' ∧ com = line.drop (code.length + 1) ∧
    (∀ l2 : Str, '#' ∉ l2 → (split_code_and_comment l2).2 = none) := by
  unfold split_code_and_comment at h
  rcases hr : sccCore line false false with ⟨cp, fd⟩
  rw [hr] at h
  cases fd
  · simp at h
  · simp only [Prod.mk.injEq] at h
    obtain ⟨h1, h2⟩ := h
    subst h1
    simp only [if_true] at h2
    have h2 := Option.some.inj h2
    refine ⟨sccCore_found_hash hr, h2.symm, ?_⟩
    intro l2 h2'
    rw [split_code_and_comment_no_hash h2']

/-- C6 amended witness: the line `x # y` instantiates the amended claim;
its code part is `x ` and its comment is ` y`, everything after the `#`. -/
theorem c6_amended_comment_extent_witness :
    (strOf "x # y").get? (strOf "x ").length = some '#' ∧
    strOf " y" = (strOf "x # y").drop ((strOf "x ").length + 1) ∧
    (∀ l2 : Str, '#' ∉ l2 → (split_code_and_comment l2).2 = none) :=
  c6_amended_comment_extent (strOf "x # y") (strOf "x ") (strOf " y") (by decide)

/-- If the inner precedence loop reports an operator, its rank strictly
improves on the best so far. -/
theorem tryOpsAt_precLt {e : Str} {i : Nat} {best : Option (Nat × BinaryOperator × Nat)} :
    ∀ {ops : List (Nat × BinaryOperator × Str)} {op : BinaryOperator} {prec : Nat},
      tryOpsAt e i best ops = some (op, prec) → precLtBest prec best = true := by
  intro ops
  induction ops with
  | nil => intro op prec h; exact absurd h (by simp [tryOpsAt])
  | cons hd tl ih =>
    intro op prec h
    rcases hd with ⟨p, o, s⟩
    unfold tryOpsAt at h
    by_cases hc : (check_operator_at_position e i s && precLtBest p best) = true
    · rw [if_pos hc] at h
      simp only [Option.some.injEq, Prod.mk.injEq] at h
      obtain ⟨_, h2⟩ := h
      subst h2
      exact (Bool.and_eq_true .. ▸ hc).2
    · rw [if_neg hc] at h
      exact ih h

/-- C3 amended: each operator spelling carries its own precedence rank
(its index in the `PRECEDENCE` table, `| ^ & + - * / // %`); the scan
replaces the recorded occurrence only on a strictly lower rank, so the
occurrence with the lowest rank wins and, within equal rank, the first
(leftmost) occurrence found is never displaced.  `+` (rank 3) and `-`
(rank 4) are distinct ranks, so `1 - 2 + 3` splits at the `+`. -/
theorem c3_amended_rank_scan :
    (∀ (e : Str) (pending : List (Nat × Char)) (paren : Int)
       (p : Nat) (op : BinaryOperator) (r : Nat) (res : Nat × BinaryOperator × Nat),
       scanGo e pending paren (some (p, op, r)) = some res →
       res.2.2 ≤ r ∧ (res.2.2 = r → res = (p, op, r))) ∧
    find_best_operator (strOf "1 - 2 + 3") = some (6, .add) := by
  constructor
  · intro e pending
    induction pending with
    | nil =>
      intro paren p op r res h
      simp only [scanGo] at h
      obtain rfl : (p, op, r) = res := by simpa using h
      exact ⟨le_refl _, fun _ => rfl⟩
    | cons pc rest ih =>
      intro paren p op r res h
      rcases pc with ⟨i, ch⟩
      simp only [scanGo] at h
      by_cases hp : parenStep paren ch = 0
      · rw [if_pos hp] at h
        rcases htry : tryOpsAt e i (some (p, op, r)) PRECEDENCE.enum with _ | ⟨o2, r2⟩
        · rw [htry] at h
          exact ih _ _ _ _ _ h
        · rw [htry] at h
          have hlt : r2 < r := by
            have := tryOpsAt_precLt htry
            simpa [precLtBest] using this
          have hres := ih _ _ _ _ _ h
          refine ⟨le_trans hres.1 (le_of_lt hlt), fun heq => ?_⟩
          exact absurd heq (by omega)
      · rw [if_neg hp] at h
        exact ih _ _ _ _ _ h
  · decide

/-- C3 amended witness: a concrete recorded occurrence is kept by an empty
remainder of the scan, and the amended theorem reports its rank bound. -/
theorem c3_amended_rank_scan_witness :
    scanGo (strOf "a - b") [] 0 (some (2, .subtract, 4)) = some (2, .subtract, 4) ∧
    (((2 : Nat), BinaryOperator.subtract, (4 : Nat)) : Nat × BinaryOperator × Nat).2.2 ≤ 4 :=
  ⟨rfl, (c3_amended_rank_scan.1 (strOf "a - b") [] 0 2 .subtract 4 (2, .subtract, 4) rfl).1⟩

/-- C9: confirmed.  Whenever the trimmed code segment starts with `print`
— whatever follows, including declaration-shaped lines such as
`printer: int = 1` — `parse_line` answers with the print rules alone, the
symbol table is left untouched, and any successful outcome of those rules
is a `Print` statement, so the declaration and assignment rules are never
reached. -/
theorem c9_print_prefix_takes_priority (line : Str) (k : Nat) (m : SymbolTable)
    (h : strStartsWith (strOf "print") (trimL (split_code_and_comment line).1) = true) :
    parse_line line k m =
      (printRule (trimL (split_code_and_comment line).1)
        ((split_code_and_comment line).2.map trimStartL)
        (line.takeWhile isWS).length k, m) ∧
    ∀ res : ParsedLine,
      printRule (trimL (split_code_and_comment line).1)
        ((split_code_and_comment line).2.map trimStartL)
        (line.takeWhile isWS).length k = some (.ok res) →
      ∃ content com i, res = .print content com i := by
  have hne : trimL (split_code_and_comment line).1 ≠ [] := by
    intro he
    rw [he] at h
    exact absurd h (by decide)
  constructor
  · simp only [parse_line]
    rw [if_neg hne, if_pos h]
  · intro res hres
    unfold printRule at hres
    split at hres
    · simp at hres
    · split at hres
      · split at hres
        · simp at hres
        · simp only [] at hres
          split at hres
          · simp at hres
          · split at hres
            · simp at hres
            · exact ⟨_, _, _, (Except.ok.inj (Option.some.inj hres)).symm⟩
      · simp at hres

/-- C9 witness: the declaration-shaped line `printer: int = 1` is handled
by the print rules (failing on the missing parentheses) with the symbol
table unchanged. -/
theorem c9_print_prefix_takes_priority_witness :
    (parse_line (strOf "printer: int = 1") 1 emptyST).1 =
      some (.error ⟨strOf "Отсутствуют скобки у вызова print", 1, 0⟩) ∧
    (parse_line (strOf "printer: int = 1") 1 emptyST).2 = emptyST := by
  have h := (c9_print_prefix_takes_priority (strOf "printer: int = 1") 1 emptyST (by decide)).1
  rw [h]
  exact ⟨by decide, rfl⟩

/-- C1: refuted.  Generating the `VariableAssign` statement whose value is
the `CompoundAssign` node for `x += 3` yields the line `x +=;` — the
rendered value sub-expression `3` is absent — and the statement line
`x += 3` itself is rejected by `parse_line`, which splits at the first `=`
and looks up the undeclared name `x +`. -/
theorem c1_compound_assign_value_dropped :
    generate_rust_line (.variableAssign (strOf "x")
        (.compoundAssign (strOf "x") .add (.literal (strOf "3") (strOf "int"))
          (strOf "int")) none 0) = strOf "x +=;" ∧
    strOf "x +=;" ≠ strOf "x += 3;" ∧
    (parse_line (strOf "x += 3") 2 (insertST emptyST (strOf "x") (strOf "int"))).1 =
      some (.error ⟨strOf "Переменная 'x +' не объявлена", 2, 1⟩) ∧
    (parse_line (strOf "x += 3") 2 (insertST emptyST (strOf "x") (strOf "int"))).2 =
      insertST emptyST (strOf "x") (strOf "int") := by
  refine ⟨by decide, by decide, by decide, rfl⟩

/-- C2: refuted.  `parse_compound_assignment` tries the operator spellings
in table order and `/=` precedes `//=`, so `x //= 2` is split at the `/=`
inside `//=`, giving the name `x /` with the divide operator — not the
name `x` with floor-divide.  The second conjunct shows the split is also
not at the earliest textual occurrence: in `a -= b += c` the later `+=`
wins because it is listed first. -/
theorem c2_compound_scan_list_order :
    parse_compound_assignment (strOf "x //= 2") =
      some (strOf "x /", .divide, strOf "2") ∧
    parse_compound_assignment (strOf "x //= 2") ≠
      some (strOf "x", .floorDivide, strOf "2") ∧
    parse_compound_assignment (strOf "a -= b += c") =
      some (strOf "a -= b", .add, strOf "c") := by
  refine ⟨by decide, by decide, by decide⟩

/-- C4: confirmed.  `1 | 2 + 3` parses with the bitwise-OR node outermost
and the additive expression `2 + 3` as its right subtree, on `int`
operands. -/
theorem c4_bitwise_or_outermost :
    parse_expression (strOf "1 | 2 + 3") emptyST 1 1 =
      some (.ok (.binaryOp (.literal (strOf "1") (strOf "int")) .bitwiseOr
        (.binaryOp (.literal (strOf "2") (strOf "int")) .add
          (.literal (strOf "3") (strOf "int")) (strOf "int"))
        (strOf "int"))) := by
  decide

/-- C10: refuted.  On the line `print)(` the first `)` precedes the first
`(`, so the Rust slice `&trimmed_code[args_start + 1..args_end]` is the
reversed range `[7..5]` and panics; `parse_line` is not total.  The `none`
outcome is the panic model. -/
theorem c10_print_reversed_parens_panic :
    ∀ (m : SymbolTable) (k : Nat),
      parse_line (strOf "print)(") k m = (none, m) ∧
      findCharIdx '(' (strOf "print)(") = some 6 ∧
      findCharIdx ')' (strOf "print)(") = some 5 := by
  intro m k
  exact ⟨rfl, by decide, by decide⟩

/-- C3 counterexample: in `1 - 2 + 3` the additive-tier operators `-` and
`+` do not share a rank: `+` (rank 3) beats the earlier `-` (rank 4), so
the split is at `+`, producing `(1 - 2) + 3` and not the claimed split at
the leftmost additive operator, which would produce `1 - (2 + 3)`. -/
theorem c3_counterexample_leftmost_tier :
    parse_expression (strOf "1 - 2 + 3") emptyST 1 1 =
      some (.ok (.binaryOp
        (.binaryOp (.literal (strOf "1") (strOf "int")) .subtract
          (.literal (strOf "2") (strOf "int")) (strOf "int"))
        .add (.literal (strOf "3") (strOf "int")) (strOf "int"))) ∧
    parse_expression (strOf "1 - 2 + 3") emptyST 1 1 ≠
      some (.ok (.binaryOp (.literal (strOf "1") (strOf "int")) .subtract
        (.binaryOp (.literal (strOf "2") (strOf "int")) .add
          (.literal (strOf "3") (strOf "int")) (strOf "int"))
        (strOf "int"))) ∧
    find_best_operator (strOf "1 - 2 + 3") = some (6, .add) := by
  refine ⟨by decide, by decide, by decide⟩

/-- C7: confirmed.  For every prior symbol table — whatever it maps `y`
to, including nothing at all — the declaration `y: int = y` parses
successfully, with the initializer occurrence of `y` resolved as a
`Variable` of the freshly declared type `int`: the (name, type) entry is
inserted before the initializer is parsed. -/
theorem c7_symbol_table_updated_before_initializer :
    ∀ (m : SymbolTable) (k : Nat),
      parse_line (strOf "y: int = y") k m =
        (some (.ok (.variableDecl (strOf "y") (strOf "int")
          (some (.var (strOf "y") (strOf "int"))) none 0)),
         insertST m (strOf "y") (strOf "int")) :=
  fun _ _ => rfl

/-- C5: confirmed.  For a declared variable `v` of type `T` and an
expression text `e` that parses successfully, the assignment line `v = e`
yields a `VariableAssign` statement exactly when the resolved type of `e`
equals `T`; otherwise the type-mismatch error is raised at the column just
after the `=`, and the assigned expression is the parsed `e` unmodified
(no coercion).  The side conditions pin the line to the assignment shape:
the name starts with a letter and is free of `:`, `=` and `#`, and the
pre-trimmed expression text is free of `:` and `#` and does not make the
line start with `print`. -/
theorem c5_assignment_exact_type_check (c0 : Char) (v' e : Str) (m : SymbolTable)
    (k : Nat) (T : Str) (ex : Expression)
    (hAlpha : c0.isAlpha = true)
    (hvTrim : trimL (c0 :: v') = c0 :: v')
    (hvColon : ':' ∉ c0 :: v') (hvEq : '=' ∉ c0 :: v') (hvHash : '#' ∉ c0 :: v')
    (heTrim : trimL e = e) (heNe : e ≠ [])
    (heColon : ':' ∉ e) (heHash : '#' ∉ e)
    (hPrint : strStartsWith (strOf "print") ((c0 :: v') ++ strOf " = " ++ e) = false)
    (hDecl : m (c0 :: v') = some T)
    (hParse : parse_expression e m k ((c0 :: v').length + 2) = some (.ok ex)) :
    (ex.get_type = T →
      parse_line ((c0 :: v') ++ strOf " = " ++ e) k m =
        (some (.ok (.variableAssign (c0 :: v') ex none 0)), m)) ∧
    (ex.get_type ≠ T →
      parse_line ((c0 :: v') ++ strOf " = " ++ e) k m =
        (some (.error ⟨strOf "Несовместимые типы: нельзя присвоить " ++ ex.get_type ++
          strOf " в " ++ T, k, (c0 :: v').length + 2⟩), m)) ∧
    (∀ (m2 : SymbolTable) (T2 : Str) (k2 c2 : Nat),
      m2 (strOf "x") = some T2 → m2 (strOf "5") = none →
      parse_expression (strOf "x += 5") m2 k2 c2 =
        some (if T2 = strOf "int"
          then .ok (.compoundAssign (strOf "x") .add
            (.literal (strOf "5") (strOf "int")) T2)
          else .error ⟨strOf "Несовместимые типы: " ++ T2 ++ strOf " и " ++ strOf "int",
            k2, c2⟩)) := by
  have hws0 : isWS c0 = false := isAlpha_not_ws hAlpha
  have hHash : '#' ∉ (c0 :: v') ++ strOf " = " ++ e := by
    intro hmem
    rcases List.mem_append.1 hmem with h12 | h4
    · rcases List.mem_append.1 h12 with h1 | h3
      · exact hvHash h1
      · simp [strOf] at h3
    · exact heHash h4
  have hsplit : split_code_and_comment ((c0 :: v') ++ strOf " = " ++ e) =
      ((c0 :: v') ++ strOf " = " ++ e, none) := split_code_and_comment_no_hash hHash
  have hlast : ∀ c, ((c0 :: v') ++ strOf " = " ++ e).getLast? = some c → isWS c = false := by
    intro c hc
    rw [List.getLast?_append_of_ne_nil _ heNe] at hc
    exact getLast_not_ws_of_trimL heTrim hc
  have htrim : trimL ((c0 :: v') ++ strOf " = " ++ e) = (c0 :: v') ++ strOf " = " ++ e := by
    refine trimL_eq_self_of (fun c hc => ?_) hlast
    have : c0 = c := by simpa using hc
    exact this ▸ hws0
  have hne0 : (c0 :: v') ++ strOf " = " ++ e ≠ [] := by simp
  have hcolon : findCharIdx ':' ((c0 :: v') ++ strOf " = " ++ e) = none := by
    refine findCharIdx_eq_none ?_
    intro hmem
    rcases List.mem_append.1 hmem with h12 | h4
    · rcases List.mem_append.1 h12 with h1 | h3
      · exact hvColon h1
      · simp [strOf] at h3
    · exact heColon h4
  have hregroup : (c0 :: v') ++ strOf " = " ++ e =
      ((c0 :: v') ++ [' ']) ++ '=' :: ' ' :: e := by simp [strOf]
  have hveqsp : '=' ∉ (c0 :: v') ++ [' '] := by
    intro hmem
    rcases List.mem_append.1 hmem with h1 | h2
    · exact hvEq h1
    · simp at h2
  have heqfind : findCharIdx '=' ((c0 :: v') ++ strOf " = " ++ e) =
      some ((c0 :: v').length + 1) := by
    rw [hregroup, findCharIdx_append_cons_self hveqsp]
    simp
  have htake : List.take ((c0 :: v').length + 1) ((c0 :: v') ++ strOf " = " ++ e) =
      (c0 :: v') ++ [' '] := by
    rw [hregroup]
    simpa using List.take_left ((c0 :: v') ++ [' ']) ('=' :: ' ' :: e)
  have hleft : trimL (List.take ((c0 :: v').length + 1) ((c0 :: v') ++ strOf " = " ++ e)) =
      c0 :: v' := by
    rw [htake, trimL_append_ws_right (by decide)]
    exact hvTrim
  have hdrop : List.drop ((c0 :: v').length + 1 + 1) ((c0 :: v') ++ strOf " = " ++ e) =
      ' ' :: e := by
    rw [hregroup, List.drop_append_eq_append_drop,
      List.drop_eq_nil_of_le (by simp)]
    simp
  have hright : trimL (List.drop ((c0 :: v').length + 1 + 1)
      ((c0 :: v') ++ strOf " = " ++ e)) = e := by
    rw [hdrop, trimL_cons_of_ws (by decide)]
    exact heTrim
  have hindent : (((c0 :: v') ++ strOf " = " ++ e).takeWhile isWS).length = 0 := by
    simp [List.takeWhile_cons, hws0]
  have hParse' : parse_expression e m k ((c0 :: v').length + 1 + 1) = some (.ok ex) := hParse
  refine ⟨?_, ?_, ?_⟩
  · intro hty
    simp only [parse_line, hsplit, htrim, hindent, hcolon, heqfind, hleft, hright,
      hPrint, Option.map_none', Bool.false_eq_true, if_false, hDecl, hParse']
    simp only [ne_eq, reduceCtorEq, not_false_eq_true, List.head?_cons, Option.elim_some,
      hAlpha, and_self, if_true, hty, not_true_eq_false, if_false]
    rfl
  · intro hty
    simp only [parse_line, hsplit, htrim, hindent, hcolon, heqfind, hleft, hright,
      hPrint, Option.map_none', Bool.false_eq_true, if_false, hDecl, hParse']
    simp only [ne_eq, reduceCtorEq, not_false_eq_true, List.head?_cons, Option.elim_some,
      hAlpha, and_self, if_true]
    rw [if_pos (fun hTeq => hty hTeq.symm)]
    rfl
  · intro m2 T2 k2 c2 hx h5
    have hval : parseExprF 15 (strOf "5") m2 k2 c2 =
        some (.ok (.literal (strOf "5") (strOf "int"))) := by
      have e1 : parseExprF 15 (strOf "5") m2 k2 c2 =
          parse_atomic_expression (strOf "5") m2 k2 c2 := rfl
      rw [e1]
      unfold parse_atomic_expression
      rw [h5]
      rfl
    show parseExprF (15 + 1) (strOf "x += 5") m2 k2 c2 = _
    rw [parseExprF]
    simp only [show trimL (strOf "x += 5") = strOf "x += 5" from by decide,
      show parse_compound_assignment (strOf "x += 5") =
        some (strOf "x", BinaryOperator.add, strOf "5") from by decide,
      hx, hval, Expression.get_type]
    by_cases hT : T2 = strOf "int"
    · rw [if_neg (fun hne => hne hT), if_pos hT]
    · rw [if_pos hT, if_neg hT]

/-- C5 witness: with `a` declared as `int`, the line `a = 5` parses to the
plain assignment of the integer literal, exercising the matching-type
branch of the theorem. -/
theorem c5_assignment_exact_type_check_witness :
    parse_line (strOf "a = 5") 1 (insertST emptyST (strOf "a") (strOf "int")) =
      (some (.ok (.variableAssign (strOf "a") (.literal (strOf "5") (strOf "int")) none 0)),
       insertST emptyST (strOf "a") (strOf "int")) := by
  have h := (c5_assignment_exact_type_check 'a' [] (strOf "5")
    (insertST emptyST (strOf "a") (strOf "int")) 1 (strOf "int")
    (.literal (strOf "5") (strOf "int"))
    (by decide) (by decide) (by decide) (by decide) (by decide)
    (by decide) (by decide) (by decide) (by decide) (by decide)
    (by decide) (by decide)).1
  exact h rfl

set_option maxHeartbeats 1000000 in
/-- C8: confirmed.  For a declaration line `n: int = e` with a valid name
and a known type whose initializer fails inside `parse_expression`,
`parse_line` propagates the error while the symbol table has already been
mutated: the returned table is the input table with (name, `int`)
inserted, and the declared name looks up to `int` in it.  The side
conditions pin the line to the declaration shape, as in the assignment
theorem. -/
theorem c8_decl_error_not_atomic (c0 : Char) (n' e : Str) (m : SymbolTable)
    (k : Nat) (err : TranspilerError)
    (hAlpha : c0.isAlpha = true)
    (hnTrim : trimL (c0 :: n') = c0 :: n')
    (hnColon : ':' ∉ c0 :: n') (hnHash : '#' ∉ c0 :: n')
    (heTrim : trimL e = e) (heNe : e ≠ []) (heHash : '#' ∉ e)
    (hPrint : strStartsWith (strOf "print") ((c0 :: n') ++ strOf ": int = " ++ e) = false)
    (hErr : parse_expression e (insertST m (c0 :: n') (strOf "int")) k
      ((c0 :: n').length + 6) = some (.error err)) :
    parse_line ((c0 :: n') ++ strOf ": int = " ++ e) k m =
      (some (.error err), insertST m (c0 :: n') (strOf "int")) ∧
    insertST m (c0 :: n') (strOf "int") (c0 :: n') = some (strOf "int") := by
  have hws0 : isWS c0 = false := isAlpha_not_ws hAlpha
  have hHash : '#' ∉ (c0 :: n') ++ strOf ": int = " ++ e := by
    intro hmem
    rcases List.mem_append.1 hmem with h12 | h4
    · rcases List.mem_append.1 h12 with h1 | h3
      · exact hnHash h1
      · simp [strOf] at h3
    · exact heHash h4
  have hsplit : split_code_and_comment ((c0 :: n') ++ strOf ": int = " ++ e) =
      ((c0 :: n') ++ strOf ": int = " ++ e, none) := split_code_and_comment_no_hash hHash
  have hlast : ∀ c, ((c0 :: n') ++ strOf ": int = " ++ e).getLast? = some c →
      isWS c = false := by
    intro c hc
    rw [List.getLast?_append_of_ne_nil _ heNe] at hc
    exact getLast_not_ws_of_trimL heTrim hc
  have htrim : trimL ((c0 :: n') ++ strOf ": int = " ++ e) =
      (c0 :: n') ++ strOf ": int = " ++ e := by
    refine trimL_eq_self_of (fun c hc => ?_) hlast
    have : c0 = c := by simpa using hc
    exact this ▸ hws0
  have hne0 : (c0 :: n') ++ strOf ": int = " ++ e ≠ [] := by simp
  have hregroup : (c0 :: n') ++ strOf ": int = " ++ e =
      (c0 :: n') ++ ':' :: (strOf " int = " ++ e) := by simp [strOf]
  have hcolonfind : findCharIdx ':' ((c0 :: n') ++ strOf ": int = " ++ e) =
      some (c0 :: n').length := by
    rw [hregroup, findCharIdx_append_cons_self hnColon]
  have hname : trimL (List.take (c0 :: n').length ((c0 :: n') ++ strOf ": int = " ++ e)) =
      c0 :: n' := by
    rw [show ((c0 :: n') ++ strOf ": int = " ++ e) =
      (c0 :: n') ++ (strOf ": int = " ++ e) from by simp,
      List.take_left, hnTrim]
  have hafterPre : List.drop ((c0 :: n').length + 1)
      ((c0 :: n') ++ strOf ": int = " ++ e) = ' ' :: (strOf "int = " ++ e) := by
    rw [show ((c0 :: n') ++ strOf ": int = " ++ e) =
      ((c0 :: n') ++ [':']) ++ (' ' :: (strOf "int = " ++ e)) from by simp [strOf]]
    rw [show (c0 :: n').length + 1 = ((c0 :: n') ++ [':']).length from by simp]
    exact List.drop_left _ _
  have hintLast : ∀ c, (strOf "int = " ++ e).getLast? = some c → isWS c = false := by
    intro c hc
    rw [List.getLast?_append_of_ne_nil _ heNe] at hc
    exact getLast_not_ws_of_trimL heTrim hc
  have hafter : trimL (List.drop ((c0 :: n').length + 1)
      ((c0 :: n') ++ strOf ": int = " ++ e)) = strOf "int = " ++ e := by
    rw [hafterPre, trimL_cons_of_ws (by decide)]
    exact trimL_eq_self_of (fun c hc => by
      have : 'i' = c := by simpa [strOf] using hc
      exact this ▸ (by decide)) hintLast
  have heqAfter : findCharIdx '=' (strOf "int = " ++ e) = some 4 := by
    rw [show (strOf "int = " ++ e) = strOf "int " ++ '=' :: (' ' :: e) from by simp [strOf],
      findCharIdx_append_cons_self (by decide)]
    rfl
  have htakeAfter : List.take 4 (strOf "int = " ++ e) = strOf "int " := by
    rw [show (strOf "int = " ++ e) = strOf "int " ++ ('=' :: ' ' :: e) from by simp [strOf],
      show (4 : Nat) = (strOf "int ").length from rfl]
    exact List.take_left _ _
  have hdropAfter : List.drop 5 (strOf "int = " ++ e) = ' ' :: e := by
    rw [show (strOf "int = " ++ e) = (strOf "int =") ++ (' ' :: e) from by simp [strOf],
      show (5 : Nat) = (strOf "int =").length from rfl]
    exact List.drop_left _ _
  have hvalue : trimL (' ' :: e) = e := by
    rw [trimL_cons_of_ws (by decide)]
    exact heTrim
  have hindent : (((c0 :: n') ++ strOf ": int = " ++ e).takeWhile isWS).length = 0 := by
    simp [List.takeWhile_cons, hws0]
  have hErr' : parse_expression e (insertST m (c0 :: n') (strOf "int")) k
      ((c0 :: n').length + (strOf "int ").length + 2) = some (.error err) := hErr
  constructor
  · simp only [parse_line, hsplit, htrim, hindent, hcolonfind, hname, hafter,
      hPrint, Option.map_none', Bool.false_eq_true, if_false, splitn2, heqAfter,
      htakeAfter, hdropAfter, hvalue]
    simp only [ne_eq, reduceCtorEq, not_false_eq_true, List.head?_cons, Option.elim_some,
      hAlpha, if_true, show trimL (strOf "int ") = strOf "int" from by decide,
      show (get_type_mapping (strOf "int")).isNone = false from by decide,
      Bool.false_eq_true, if_false, hErr']
    rfl
  · simp [insertST]

/-- C8 witness: with an empty prior table, `z: int = @` fails on the
invalid literal `@` while `z` is already recorded as `int`. -/
theorem c8_decl_error_not_atomic_witness :
    parse_line (strOf "z: int = @") 1 emptyST =
      (some (.error ⟨strOf "Некорректный литерал: @", 1, 7⟩),
       insertST emptyST (strOf "z") (strOf "int")) ∧
    insertST emptyST (strOf "z") (strOf "int") (strOf "z") = some (strOf "int") :=
  c8_decl_error_not_atomic 'z' [] (strOf "@") emptyST 1
    ⟨strOf "Некорректный литерал: @", 1, 7⟩
    (by decide) (by decide) (by decide) (by decide) (by decide) (by decide)
    (by decide) (by decide) (by decide)

/-- C6 counterexample: splitting `#ab` yields the comment `ab` — only the
`#` itself is skipped — and not the claimed `b` with the first character
after `#` also skipped. -/
theorem c6_counterexample_comment_skip :
    split_code_and_comment (strOf "#ab") = ([], some (strOf "ab")) ∧
    strOf "ab" ≠ strOf "b" := by
  exact ⟨by decide, by decide⟩

end Pando
